import Mathlib

/-!
Verification development for the pastas time-series normalization pipeline
(`src/pastas/timeseries.py`, class `TimeSeries`).

Modelling choices:
* Timestamps are integer minutes since an epoch (`Time := Int`); a day is
  `D = 1440` minutes.  Frequency strings ("D", "H", ...) are modelled as the
  positive number of minutes they denote, so `get_dt` is the identity.
* Observation values are rationals; a NaN cell is `Option.none`.
* A pandas `Series` is an ordered list of `(timestamp, value-or-NaN)` rows;
  pandas index operations (`asfreq`, `reindex`, `resample`, `date_range`,
  `Index.union`, ...) are given executable list-level models that follow the
  documented pandas semantics used by the source.
* Warnings raised through `warnings.warn` are collected in an explicit list;
  `Warning.unsupported step policy` records the step name that appears
  literally in the warning's format string together with the offending
  policy value.
* Python policy values are dispatched on by runtime type
  (`type(method) == float`, string comparison, `None`); the `Policy` type
  mirrors this with separate constructors for strings, floats, ints and None.
-/

namespace Pastas

/-- Timestamps, in integer minutes since an epoch. -/
abbrev Time := Int

/-- Observation values; pandas NaN cells are `Option.none` at the row level. -/
abbrev Val := Rat

/-- One row of a pandas Series: (timestamp, value or NaN). -/
abbrev Entry := Time × Option Val

/-- A pandas Series over a DatetimeIndex, as its ordered list of rows. -/
abbrev TSeries := List Entry

/-- The length of one day at minute resolution; the frequency string "D". -/
def D : Nat := 1440

/-- A policy value as stored in the settings dict.  Python distinguishes the
cases by runtime type: `None`, `str`, `float` (and anything else, e.g. `int`,
falls through every recognized branch). -/
inductive Policy where
  | none
  | str (s : String)
  | flt (x : Rat)
  | int (n : Int)
  deriving DecidableEq

/-- Python truthiness of a policy value (`if self.settings["fill_nan"]`):
`None`, the empty string, `0.0` and `0` are falsy. -/
def Policy.truthy : Policy → Bool
  | Policy.none => false
  | Policy.str s => s ≠ ""
  | Policy.flt x => x ≠ 0
  | Policy.int n => n ≠ 0

/-- Runtime-type test `type(method) == float`. -/
def Policy.isFloat : Policy → Bool
  | Policy.flt _ => true
  | _ => false

/-- The float payload of a float policy (only used behind `isFloat`). -/
def Policy.floatVal : Policy → Rat
  | Policy.flt x => x
  | _ => 0

/-- A caution surfaced to the caller via `warnings.warn`.
`unsupported stepNamed policy` is the warning
`'User-defined option for <stepNamed> %s is not supported' % policy`, where
`stepNamed` is the step name appearing literally in the source's format
string.  `irregularFreq` is the warning emitted by `validate_series` when no
frequency can be inferred and the user-provided frequency is applied. -/
inductive Warning where
  | unsupported (stepNamed : String) (policy : Policy)
  | irregularFreq
  deriving DecidableEq

/-- The timestamps of a series (its index). -/
def timesOf (s : TSeries) : List Time := s.map Prod.fst

/-- Value stored at timestamp `t` (first match), NaN/absent otherwise.
Models positional lookup during `reindex`/`asfreq` on a unique index. -/
def lookupT (s : TSeries) (t : Time) : Option Val :=
  match s.find? (fun e => e.1 == t) with
  | some e => e.2
  | Option.none => Option.none

/-- `series.hasnans`. -/
def hasNans (s : TSeries) : Bool := s.any (fun e => e.2.isNone)

/-- `series.dropna()`: remove the NaN rows. -/
def dropnaList (s : TSeries) : TSeries := s.filter (fun e => e.2.isSome)

/-- Sum of a list of values (`0` for the empty list, like pandas `sum`). -/
def sumVals (vs : List Val) : Val := vs.foldr (· + ·) 0

/-- `series.fillna(x)` for a fixed numeric constant `x`. -/
def fillnaConst (x : Val) (s : TSeries) : TSeries :=
  s.map (fun e => (e.1, some (e.2.getD x)))

/-- `series.mean()`: mean of the non-NaN values, NaN when there are none. -/
def seriesMean (s : TSeries) : Option Val :=
  let vs := s.filterMap Prod.snd
  if vs.isEmpty then Option.none else some (sumVals vs / (vs.length : Val))

/-- `series.fillna(series.mean())`; filling with NaN leaves NaN in place. -/
def fillnaMean (s : TSeries) : TSeries :=
  match seriesMean s with
  | some m => fillnaConst m s
  | Option.none => s

/-- The non-NaN rows of a series, as (timestamp, value) pairs. -/
def validPairs (s : TSeries) : List (Time × Val) :=
  s.filterMap (fun e => e.2.map (fun v => (e.1, v)))

/-- The last valid observation strictly before `t`. -/
def prevValid (s : TSeries) (t : Time) : Option (Time × Val) :=
  ((validPairs s).filter (fun p => p.1 < t)).getLast?

/-- The first valid observation strictly after `t`. -/
def nextValid (s : TSeries) (t : Time) : Option (Time × Val) :=
  ((validPairs s).filter (fun p => t < p.1)).head?

/-- `series.interpolate(method='time')`: linear interpolation in time between
the surrounding valid observations; trailing NaNs are filled with the last
valid value, leading NaNs stay NaN (pandas' forward fill direction). -/
def interpolateTime (s : TSeries) : TSeries :=
  s.map (fun e =>
    (e.1,
      match e.2 with
      | some v => some v
      | Option.none =>
        match prevValid s e.1, nextValid s e.1 with
        | some p, some q =>
          some (p.2 + (q.2 - p.2) * ((e.1 - p.1 : Int) : Val) / ((q.1 - p.1 : Int) : Val))
        | some p, Option.none => some p.2
        | _, _ => Option.none))

/-- Insert an entry into a list sorted by timestamp. -/
def insertEntry (e : Entry) : TSeries → TSeries
  | [] => [e]
  | x :: xs => if e.1 ≤ x.1 then e :: x :: xs else x :: insertEntry e xs

/-- `series.sort_index(inplace=True)` (after the `pd.to_datetime` coercion,
which is the identity on canonical integer timestamps). -/
def sortSeries (s : TSeries) : TSeries := s.foldr insertEntry []

/-- Insert a timestamp into a sorted list of timestamps. -/
def insertTime (t : Time) : List Time → List Time
  | [] => [t]
  | x :: xs => if t ≤ x then t :: x :: xs else x :: insertTime t xs

/-- Sort a list of timestamps ascending. -/
def sortTimes (l : List Time) : List Time := l.foldr insertTime []

/-- Remove adjacent duplicates of a sorted list. -/
def dedupSorted : List Time → List Time
  | a :: b :: rest =>
    if a = b then dedupSorted (b :: rest) else a :: dedupSorted (b :: rest)
  | l => l

/-- `pandas.Index.union`: sorted union without duplicates. -/
def unionIdx (a b : List Time) : List Time := dedupSorted (sortTimes (a ++ b))

/-- Drop the leading all-NaN rows (`series.loc[series.first_valid_index():]`). -/
def trimFront (s : TSeries) : TSeries := s.dropWhile (fun e => e.2.isNone)

/-- One past the position of the last valid row (0 when there is none). -/
def lastValidPos : TSeries → Nat
  | [] => 0
  | e :: rest =>
    let p := lastValidPos rest
    if p = 0 then (if e.2.isSome then 1 else 0) else p + 1

/-- Keep rows up to and including the last valid one
(`series.loc[:series.last_valid_index()]`). -/
def trimEnd (s : TSeries) : TSeries := s.take (lastValidPos s)

/-- `series.loc[series.first_valid_index():series.last_valid_index()]`: trim
leading and trailing NaN rows; with no valid row at all both bounds are
`None` and pandas returns the series unchanged. -/
def trim (s : TSeries) : TSeries :=
  if s.all (fun e => e.2.isNone) then s else trimEnd (trimFront s)

/-- `n` grid points starting at `t` with spacing `f`. -/
def dateRangeAux (f : Nat) : Nat → Time → List Time
  | 0, _ => []
  | n + 1, t => t :: dateRangeAux f n (t + (f : Int))

/-- `pd.date_range(start, end, freq)`: the grid `start, start+f, ...` up to
`stop`; empty when `start > stop` (pandas raises on `freq=0`, which the
pipeline never passes; modelled as empty). -/
def dateRange (start stop : Time) (f : Nat) : List Time :=
  if stop < start ∨ f = 0 then []
  else dateRangeAux f ((stop - start).toNat / f + 1) start

/-- The target index of `series.asfreq(freq)`:
`pd.date_range(series.index[0], series.index[-1], freq)`. -/
def gridOf (f : Nat) (s : TSeries) : List Time :=
  match timesOf s with
  | [] => []
  | t :: ts => dateRange t ((t :: ts).getLast (List.cons_ne_nil t ts)) f

/-- `series.asfreq(freq)`: reindex onto the regular grid; timestamps absent
from the original index become NaN. -/
def asfreq (f : Nat) (s : TSeries) : TSeries :=
  (gridOf f s).map (fun t => (t, lookupT s t))

/-- Value of the last original row at a timestamp `≤ t` (possibly NaN). -/
def prevEntryVal (s : TSeries) (t : Time) : Option Val :=
  ((s.filter (fun e => e.1 ≤ t)).getLast?).bind (fun e => e.2)

/-- Value of the first original row at a timestamp `≥ t` (possibly NaN). -/
def nextEntryVal (s : TSeries) (t : Time) : Option Val :=
  ((s.filter (fun e => t ≤ e.1)).head?).bind (fun e => e.2)

/-- `series.asfreq(freq, method='ffill'/'pad')`: missing grid labels take the
value of the previous original row; labels already present keep their value. -/
def asfreqFfill (f : Nat) (s : TSeries) : TSeries :=
  (gridOf f s).map (fun t =>
    (t, if (timesOf s).contains t then lookupT s t else prevEntryVal s t))

/-- `series.asfreq(freq, method='bfill'/'backfill')`: missing grid labels take
the value of the next original row. -/
def asfreqBfill (f : Nat) (s : TSeries) : TSeries :=
  (gridOf f s).map (fun t =>
    (t, if (timesOf s).contains t then lookupT s t else nextEntryVal s t))

/-- `series.reindex(index)`. -/
def reindex (s : TSeries) (index : List Time) : TSeries :=
  index.map (fun t => (t, lookupT s t))

/-- Check that all consecutive differences equal `d`. -/
def allDiffEq (d : Int) : List Time → Bool
  | a :: b :: rest => (b - a == d) && allDiffEq d (b :: rest)
  | _ => true

/-- `pd.infer_freq(index)`: a frequency is inferred when the index has at
least three timestamps with a constant positive spacing; otherwise none.
On fewer than three timestamps the library raises `ValueError` ("Need at
least 3 dates to infer frequency") instead, so such inputs never complete
construction; the model returns none there, and every claim anchored at the
constructor or at validation uses an index of at least three timestamps. -/
def inferFreq : List Time → Option Nat
  | a :: b :: c :: rest =>
    if 0 < b - a ∧ allDiffEq (b - a) (a :: b :: c :: rest) then some (b - a).toNat
    else Option.none
  | _ => Option.none

/-- With `label='right', closed='right'` resampling, the bucket of timestamp
`t` is labeled by its right edge: the least multiple of `f` that is `≥ t`. -/
def bucketLabel (f : Nat) (t : Time) : Time := t + (-t) % (f : Int)

/-- The non-NaN values falling in the bucket labeled `L`
(aggregations skip NaN). -/
def bucketValues (f : Nat) (s : TSeries) (L : Time) : List Val :=
  s.filterMap (fun e => if bucketLabel f e.1 == L then e.2 else Option.none)

/-- The aggregation used by `Resampler.mean/sum/min/max`: mean of an empty
bucket is NaN, sum of an empty bucket is 0, min/max of an empty bucket NaN. -/
inductive Agg where
  | mean
  | sum
  | min
  | max

/-- Apply an aggregation to the values of one bucket. -/
def aggApply (a : Agg) (vs : List Val) : Option Val :=
  match a with
  | Agg.mean => if vs.isEmpty then Option.none else some (sumVals vs / (vs.length : Val))
  | Agg.sum => some (sumVals vs)
  | Agg.min => vs.min?
  | Agg.max => vs.max?

/-- `series.resample(freq, label='right', closed='right').<agg>()`: one output
row per bucket label from the bucket of the smallest timestamp to the bucket
of the largest. -/
def resampleRight (f : Nat) (a : Agg) (s : TSeries) : TSeries :=
  match timesOf s with
  | [] => []
  | t :: ts =>
    let mn := ts.foldl min t
    let mx := ts.foldl max t
    (dateRange (bucketLabel f mn) (bucketLabel f mx) f).map
      (fun L => (L, aggApply a (bucketValues f s L)))

/-- `series.groupby(level=0).mean()`: collapse duplicate timestamps by the
mean of their non-NaN values (NaN when a group has none); sorted output. -/
def groupMean (s : TSeries) : TSeries :=
  (dedupSorted (sortTimes (timesOf s))).map (fun t =>
    (t,
      let vs := s.filterMap (fun e => if e.1 == t then e.2 else Option.none)
      if vs.isEmpty then Option.none else some (sumVals vs / (vs.length : Val))))

/-- The settings dict of a `TimeSeries`, with the keys the constructor
installs; `freq = Option.none` models a `None`/falsy frequency. -/
structure Settings where
  freq : Option Nat
  sample_up : Policy
  sample_down : Policy
  fill_nan : Policy
  fill_before : Policy
  fill_after : Policy
  tmin : Option Time
  tmax : Option Time
  norm : Policy
  deriving DecidableEq

/-- A partial settings dict (user overrides / per-type defaults): a field that
is `Option.none` is an absent key, `some v` overrides the stored value. -/
structure SettingsPatch where
  freq : Option (Option Nat) := Option.none
  sample_up : Option Policy := Option.none
  sample_down : Option Policy := Option.none
  fill_nan : Option Policy := Option.none
  fill_before : Option Policy := Option.none
  fill_after : Option Policy := Option.none
  tmin : Option (Option Time) := Option.none
  tmax : Option (Option Time) := Option.none
  norm : Option Policy := Option.none
  deriving DecidableEq

/-- `settings.update(patch)`. -/
def applyPatch (st : Settings) (p : SettingsPatch) : Settings :=
  { freq := p.freq.getD st.freq
    sample_up := p.sample_up.getD st.sample_up
    sample_down := p.sample_down.getD st.sample_down
    fill_nan := p.fill_nan.getD st.fill_nan
    fill_before := p.fill_before.getD st.fill_before
    fill_after := p.fill_after.getD st.fill_after
    tmin := p.tmin.getD st.tmin
    tmax := p.tmax.getD st.tmax
    norm := p.norm.getD st.norm }

/-- The dict literal installed at the top of `__init__`. -/
def baseSettings : Settings :=
  { freq := some D
    sample_up := Policy.none
    sample_down := Policy.none
    fill_nan := Policy.none
    fill_before := Policy.none
    fill_after := Policy.none
    tmin := Option.none
    tmax := Option.none
    norm := Policy.none }

/-- `TimeSeries._type_settings`: per-series-type defaults. -/
def typeSettings (ty : String) : Option SettingsPatch :=
  if ty = "oseries" then
    some { freq := some (some D), sample_up := some Policy.none,
           sample_down := some Policy.none, fill_nan := some (Policy.str "drop"),
           fill_before := some Policy.none, fill_after := some Policy.none }
  else if ty = "prec" then
    some { freq := some (some D), sample_up := some (Policy.str "mean"),
           sample_down := some (Policy.str "sum"), fill_nan := some (Policy.flt 0),
           fill_before := some (Policy.str "mean"), fill_after := some (Policy.str "mean") }
  else if ty = "evap" then
    some { freq := some (some D), sample_up := some (Policy.str "interpolate"),
           sample_down := some (Policy.str "sum"), fill_nan := some (Policy.str "interpolate"),
           fill_before := some (Policy.str "mean"), fill_after := some (Policy.str "mean") }
  else if ty = "well" then
    some { freq := some (some D), sample_up := some (Policy.str "bfill"),
           sample_down := some (Policy.str "sum"), fill_nan := some (Policy.flt 0),
           fill_before := some (Policy.flt 0), fill_after := some (Policy.flt 0) }
  else if ty = "waterlevel" then
    some { freq := some (some D), sample_up := some (Policy.str "mean"),
           sample_down := some (Policy.str "interpolate"),
           fill_nan := some (Policy.str "interpolate"),
           fill_before := some (Policy.str "mean"), fill_after := some (Policy.str "mean") }
  else Option.none

/-- Settings resolution order in `__init__`: the base dict, updated by the
type defaults when the type is recognized, updated by the user settings. -/
def resolveSettings (ty : Option String) (user : SettingsPatch) : Settings :=
  let st := baseSettings
  let st :=
    match ty with
    | some t =>
      match typeSettings t with
      | some p => applyPatch st p
      | Option.none => st
    | Option.none => st
  applyPatch st user

/-- A full settings dict viewed as a patch that overrides every key
(what `settings.update(exported_settings)` receives on reconstruction). -/
def fullPatch (st : Settings) : SettingsPatch :=
  { freq := some st.freq, sample_up := some st.sample_up,
    sample_down := some st.sample_down, fill_nan := some st.fill_nan,
    fill_before := some st.fill_before, fill_after := some st.fill_after,
    tmin := some st.tmin, tmax := some st.tmax, norm := some st.norm }

/-- Modelled from the spec: `get_dt` from `pastas.utils` (the module is not
under src/).  It converts a frequency string to its length as a number; with
frequencies already modelled as integral durations it is the identity. -/
def get_dt (f : Nat) : Nat := f

/-- Modelled from the spec: `get_time_offset` from `pastas.utils` (the module
is not under src/).  Per the spec's offset correction, it is the residual
phase offset of timestamp `t` with respect to the grid of frequency `f`
(`t` minus `t` floored to the frequency), i.e. `t mod f`, in `[0, f)`. -/
def get_time_offset (t : Time) (f : Nat) : Time := t % (f : Int)

/-- `TimeSeries.sample_up`: resample when the target frequency is finer.
`bfill`/`ffill` variants go through `asfreq(freq, method=...)`; the other
branches first reindex with `asfreq(freq)` and then fill the new NaNs per the
policy; an unrecognized policy leaves them unfilled and warns. -/
def sampleUp (f : Nat) (method : Policy) (s : TSeries) : TSeries × List Warning :=
  if method = Policy.str "backfill" ∨ method = Policy.str "bfill" then
    (asfreqBfill f s, [])
  else if method = Policy.str "pad" ∨ method = Policy.str "ffill" then
    (asfreqFfill f s, [])
  else
    let s1 := asfreq f s
    if method = Policy.str "mean" then (fillnaMean s1, [])
    else if method = Policy.str "interpolate" then (interpolateTime s1, [])
    else if method.isFloat then (fillnaConst method.floatVal s1, [])
    else (s1, [Warning.unsupported "sample_up" method])

/-- `TimeSeries.sample_down`: aggregate with right-closed, right-labeled
buckets (`label='right', closed='right'`).  The `"drop"` branch calls a
resampler method whose library behavior no claim exercises; it is modelled as
aggregating by mean and dropping the NaN buckets.  An unrecognized policy
leaves the series unresampled and warns. -/
def sampleDown (f : Nat) (method : Policy) (s : TSeries) : TSeries × List Warning :=
  if method = Policy.str "mean" then (resampleRight f Agg.mean s, [])
  else if method = Policy.str "drop" then (dropnaList (resampleRight f Agg.mean s), [])
  else if method = Policy.str "sum" then (resampleRight f Agg.sum s, [])
  else if method = Policy.str "min" then (resampleRight f Agg.min s, [])
  else if method = Policy.str "max" then (resampleRight f Agg.max s, [])
  else (s, [Warning.unsupported "sample_down" method])

/-- `TimeSeries.fill_nan`: with a usable original frequency, reindex onto the
regular grid and fill per policy (the warning's format string literally says
`sample_up`); without one, just drop the NaN rows. -/
def fillNan : Option Nat → Policy → TSeries → TSeries × List Warning
  | some f, method, s =>
    let s1 := asfreq f s
    if method = Policy.str "drop" then (dropnaList s1, [])
    else if method = Policy.str "mean" then (fillnaMean s1, [])
    else if method = Policy.str "interpolate" then (interpolateTime s1, [])
    else if method.isFloat then (fillnaConst method.floatVal s1, [])
    else (s1, [Warning.unsupported "sample_up" method])
  | Option.none, _, s => (dropnaList s, [])

/-- `TimeSeries.fill_before`: extend the series to a requested `tmin`.
`selfIndex` is `self.index`, the index of the `TimeSeries` object itself —
empty while the constructor's pipeline runs, since `self` is filled in only
at the end of `update_series` (the source unions the extension with
`self.index`, not with `series.index`).  The warning's format string
literally says `sample_up`.  The source never reaches the extension branch
with a missing frequency or an empty series (the library calls would fail
there); both are modelled as pass-through. -/
def fillBeforeCore (selfIndex : List Time) (method : Policy) :
    Option Nat → Option Time → Option Time → TSeries → TSeries × List Warning
  | _, Option.none, _, s => (s, [])
  | _, some _, Option.none, s => (s, [])
  | Option.none, some _, some _, s => (s, [])
  | some f, some tmin, some mn, s =>
    if mn ≤ tmin then (s, [])
    else
      let tmin2 := tmin - get_time_offset tmin f
      let indexExtend := dateRange tmin2 mn f
      let index := unionIdx selfIndex indexExtend.dropLast
      let s2 := reindex s index
      if method = Policy.str "mean" then (fillnaMean s2, [])
      else if method.isFloat then (fillnaConst method.floatVal s2, [])
      else (s2, [Warning.unsupported "sample_up" method])

/-- `TimeSeries.fill_before` proper, dispatching on the settings fields. -/
def fillBefore (selfIndex : List Time) (st : Settings) (s : TSeries) :
    TSeries × List Warning :=
  fillBeforeCore selfIndex st.fill_before st.freq st.tmin ((timesOf s).min?) s

/-- `TimeSeries.fill_after`: extend the series to a requested `tmax`.  The
source computes `pd.date_range(start=tmax - offset, end=series.index.max())`
(start and end in that order) and unions `indexExtend[:-1]` with
`self.index`; `selfIndex` is `self.index` as in `fillBefore`.  The warning's
format string literally says `sample_up`. -/
def fillAfterCore (selfIndex : List Time) (method : Policy) :
    Option Nat → Option Time → Option Time → TSeries → TSeries × List Warning
  | _, Option.none, _, s => (s, [])
  | _, some _, Option.none, s => (s, [])
  | Option.none, some _, some _, s => (s, [])
  | some f, some tmax, some mx, s =>
    if tmax ≤ mx then (s, [])
    else
      let tmax2 := tmax - get_time_offset tmax f
      let indexExtend := dateRange tmax2 mx f
      let index := unionIdx selfIndex indexExtend.dropLast
      let s2 := reindex s index
      if method = Policy.str "mean" then (fillnaMean s2, [])
      else if method.isFloat then (fillnaConst method.floatVal s2, [])
      else (s2, [Warning.unsupported "sample_up" method])

/-- `TimeSeries.fill_after` proper, dispatching on the settings fields. -/
def fillAfter (selfIndex : List Time) (st : Settings) (s : TSeries) :
    TSeries × List Warning :=
  fillAfterCore selfIndex st.fill_after st.freq st.tmax ((timesOf s).max?) s

/-- `TimeSeries.normalize`: `None` passes, `"mean"` subtracts the series
mean, anything else falls through the `if`/`elif` silently (no warning). -/
def normalizeStep (st : Settings) (s : TSeries) : TSeries × List Warning :=
  if st.norm = Policy.none then (s, [])
  else if st.norm = Policy.str "mean" then
    (s.map (fun e => (e.1, (seriesMean s).bind (fun m => e.2.map (fun v => v - m)))), [])
  else (s, [])

/-- `TimeSeries.change_frequency`: choose a branch by comparing `get_dt` of
the target and original frequency, then trim leading/trailing NaN rows.  A
missing target frequency passes the series through; a missing original
frequency would make `get_dt` fail in the library, a state the pipeline never
reaches when a target frequency is set (validation always stores one then). -/
def changeFrequencyCore :
    Option Nat → Option Nat → Settings → TSeries → TSeries × List Warning
  | Option.none, _, _, s => (s, [])
  | some _, Option.none, _, s => (s, [])
  | some f, some f0, st, s =>
    if get_dt f < get_dt f0 then sampleUp f st.sample_up s
    else if get_dt f0 < get_dt f then sampleDown f st.sample_down s
    else fillNan (some f0) st.fill_nan s

/-- `TimeSeries.change_frequency` proper: dispatch on the two frequencies
(`changeFrequencyCore`), then trim leading/trailing NaN rows. -/
def changeFrequency (freqOriginal : Option Nat) (st : Settings) (s : TSeries) :
    TSeries × List Warning :=
  let r := changeFrequencyCore st.freq freqOriginal st s
  (trim r.1, r.2)

/-- `TimeSeries.update_series`: the pipeline run on (a deep copy of) the
validated series — change frequency, fill before, fill after, normalize —
with `self.index` equal to `selfIndex` throughout (the object is replaced
only at the final `_update_inplace`). -/
def updateSeries (selfIndex : List Time) (freqOriginal : Option Nat)
    (st : Settings) (validated : TSeries) : TSeries × List Warning :=
  let r1 := changeFrequency freqOriginal st validated
  let r2 := fillBefore selfIndex st r1.1
  let r3 := fillAfter selfIndex st r2.1
  let r4 := normalizeStep st r3.1
  (r4.1, r1.2 ++ r2.2 ++ r3.2 ++ r4.2)

/-- Everything `validate_series` produces and mutates: the validated series,
the original frequency it records, the settings (whose `freq` it may fill
in from inference), the warnings, and the post-call state of the
caller-supplied series object (whose index it coerces and sorts in place,
before taking the deep copy it continues with). -/
structure ValidateOut where
  validated : TSeries
  freqOriginal : Option Nat
  settings : Settings
  warnings : List Warning
  callerAfter : TSeries
  deriving DecidableEq

/-- `TimeSeries.validate_series`: coerce and sort the index in place, trim
leading/trailing NaNs, infer the frequency (adopting it when no frequency is
configured, else falling back to the configured one with a caution when the
fill_nan policy is truthy and not "drop"), fill NaNs when present, and
average duplicate timestamps. -/
def validateSeries (st : Settings) (series : TSeries) : ValidateOut :=
  let sorted := sortSeries series
  let s2 := trim sorted
  let inferred := inferFreq (timesOf s2)
  let freqOrig : Option Nat :=
    match inferred with
    | some f => some f
    | Option.none => st.freq
  let st2 : Settings :=
    match inferred with
    | some f => if st.freq = Option.none then { st with freq := some f } else st
    | Option.none => st
  let w1 : List Warning :=
    match inferred with
    | some _ => []
    | Option.none =>
      if st.fill_nan.truthy = true ∧ st.fill_nan ≠ Policy.str "drop" then
        [Warning.irregularFreq]
      else []
  let fres : TSeries × List Warning :=
    if hasNans s2 then fillNan freqOrig st2.fill_nan s2 else (s2, [])
  let s4 : TSeries :=
    if (timesOf fres.1).Nodup then fres.1 else groupMean fres.1
  { validated := s4, freqOriginal := freqOrig, settings := st2,
    warnings := w1 ++ fres.2, callerAfter := sorted }

/-- The state of a `TimeSeries` object after `__init__` has run. -/
structure Processor where
  series_original : TSeries
  name : String
  type : Option String
  settings : Settings
  freq_original : Option Nat
  series : TSeries
  derived : TSeries
  warnings : List Warning
  callerAfter : TSeries
  deriving DecidableEq

/-- `TimeSeries.__init__`: store a deep copy of the input (taken before
validation mutates the caller's object), resolve settings from the type
defaults and the user overrides, validate, and run `update_series` with the
full settings.  During that run `self` is still the empty series created by
`pd.Series.__init__(self)`, so `self.index` is empty. -/
def mkProcessor (series : TSeries) (name : String) (ty : Option String)
    (user : SettingsPatch) : Processor :=
  let st0 := resolveSettings ty user
  let v := validateSeries st0 series
  let upd := updateSeries [] v.freqOriginal v.settings v.validated
  { series_original := series, name := name, type := ty,
    settings := v.settings, freq_original := v.freqOriginal,
    series := v.validated, derived := upd.1,
    warnings := v.warnings ++ upd.2, callerAfter := v.callerAfter }

/-- The record returned by `TimeSeries.export`: exactly the original series,
the settings, the name and the type — the derived series is excluded. -/
structure ExportData where
  series : TSeries
  settings : Settings
  name : String
  type : Option String
  deriving DecidableEq

/-- `TimeSeries.export`. -/
def Processor.export (p : Processor) : ExportData :=
  { series := p.series_original, settings := p.settings,
    name := p.name, type := p.type }

/-- Modelled from the spec: reconstruction (spec section 4.6) builds a new
processor from the exported record; the constructor resolves settings from
the kind defaults overridden by the exported full settings dict. -/
def reconstruct (d : ExportData) : Processor :=
  mkProcessor d.series d.name d.type (fullPatch d.settings)

/-! Index predicates used to state the grid invariant. -/

/-- The list is an arithmetic progression with step `f` (constant spacing). -/
def spacedB (f : Nat) : List Time → Bool
  | a :: b :: rest => (b == a + (f : Int)) && spacedB f (b :: rest)
  | _ => true

/-- The list is strictly increasing. -/
def strictB : List Time → Bool
  | a :: b :: rest => (decide (a < b)) && strictB (b :: rest)
  | _ => true

/-- The list is weakly increasing. -/
def sortedB : List Time → Bool
  | a :: b :: rest => (decide (a ≤ b)) && sortedB (b :: rest)
  | _ => true

theorem spacedB_tail {f : Nat} {a : Time} {l : List Time}
    (h : spacedB f (a :: l) = true) : spacedB f l = true := by
  cases l with
  | nil => rfl
  | cons b r => exact (Bool.and_eq_true_iff.mp h).2

theorem spacedB_cons {f : Nat} {a b : Time} {l : List Time}
    (h : spacedB f (a :: b :: l) = true) : b = a + (f : Int) := by
  have := (Bool.and_eq_true_iff.mp h).1
  exact eq_of_beq this

theorem spacedB_take (f : Nat) :
    ∀ (k : Nat) (l : List Time), spacedB f l = true → spacedB f (l.take k) = true := by
  intro k
  induction k with
  | zero => intro l _; rfl
  | succ k ih =>
    intro l h
    cases l with
    | nil => rfl
    | cons a l' =>
      cases l' with
      | nil => simpa using h
      | cons b r =>
        cases k with
        | zero => rfl
        | succ k' =>
          have h1 := (Bool.and_eq_true_iff.mp h).1
          have h2 := ih (b :: r) (Bool.and_eq_true_iff.mp h).2
          show spacedB f (a :: b :: List.take k' r) = true
          exact Bool.and_eq_true_iff.mpr ⟨h1, h2⟩

theorem spacedB_dropLast (f : Nat) :
    ∀ (l : List Time), spacedB f l = true → spacedB f l.dropLast = true := by
  intro l h
  rw [List.dropLast_eq_take]
  exact spacedB_take f _ l h

theorem spacedB_dateRangeAux (f : Nat) :
    ∀ (n : Nat) (t : Time), spacedB f (dateRangeAux f n t) = true := by
  intro n
  induction n with
  | zero => intro t; rfl
  | succ n ih =>
    intro t
    cases n with
    | zero => rfl
    | succ m =>
      show spacedB f (t :: (t + (f : Int)) :: dateRangeAux f m (t + (f : Int) + (f : Int))) = true
      exact Bool.and_eq_true_iff.mpr ⟨beq_self_eq_true _, ih (t + (f : Int))⟩

theorem spacedB_dateRange (f : Nat) (a b : Time) :
    spacedB f (dateRange a b f) = true := by
  unfold dateRange
  split
  · rfl
  · exact spacedB_dateRangeAux f _ a

theorem spacedB_strict {f : Nat} (hf : 0 < f) :
    ∀ (l : List Time), spacedB f l = true → strictB l = true := by
  intro l
  induction l with
  | nil => intro _; rfl
  | cons a l ih =>
    intro h
    cases l with
    | nil => rfl
    | cons b r =>
      have h1 := spacedB_cons h
      have h2 := ih (spacedB_tail h)
      refine Bool.and_eq_true_iff.mpr ⟨?_, h2⟩
      have hfpos : (0 : Int) < (f : Int) := by exact_mod_cast hf
      have hab : a < b := by
        rw [h1]
        exact lt_add_of_pos_right a hfpos
      simpa using hab

theorem strictB_sorted :
    ∀ (l : List Time), strictB l = true → sortedB l = true := by
  intro l
  induction l with
  | nil => intro _; rfl
  | cons a l ih =>
    intro h
    cases l with
    | nil => rfl
    | cons b r =>
      have h1 := (Bool.and_eq_true_iff.mp h).1
      have h2 := ih (Bool.and_eq_true_iff.mp h).2
      refine Bool.and_eq_true_iff.mpr ⟨?_, h2⟩
      have : a < b := of_decide_eq_true h1
      simpa using this.le

theorem strictB_head_lt {a : Time} :
    ∀ (l : List Time), strictB (a :: l) = true → ∀ x ∈ l, a < x := by
  intro l
  induction l generalizing a with
  | nil => intro _ x hx; cases hx
  | cons b r ih =>
    intro h x hx
    have hab : a < b := of_decide_eq_true (Bool.and_eq_true_iff.mp h).1
    have hr := (Bool.and_eq_true_iff.mp h).2
    rcases List.mem_cons.mp hx with rfl | hx
    · exact hab
    · exact hab.trans (ih hr x hx)

theorem strictB_nodup : ∀ (l : List Time), strictB l = true → l.Nodup := by
  intro l
  induction l with
  | nil => intro _; exact List.nodup_nil
  | cons a l ih =>
    intro h
    have htail : strictB l = true := by
      cases l with
      | nil => rfl
      | cons b r => exact (Bool.and_eq_true_iff.mp h).2
    refine List.nodup_cons.mpr ⟨?_, ih htail⟩
    intro hmem
    exact absurd (strictB_head_lt l h a hmem) (lt_irrefl a)

theorem sortTimes_cons (t : Time) (l : List Time) :
    sortTimes (t :: l) = insertTime t (sortTimes l) := rfl

theorem sortTimes_sorted_id :
    ∀ (l : List Time), sortedB l = true → sortTimes l = l := by
  intro l
  induction l with
  | nil => intro _; rfl
  | cons a l ih =>
    intro h
    have htail : sortedB l = true := by
      cases l with
      | nil => rfl
      | cons b r => exact (Bool.and_eq_true_iff.mp h).2
    rw [sortTimes_cons, ih htail]
    cases l with
    | nil => rfl
    | cons b r =>
      have hab : a ≤ b := of_decide_eq_true (Bool.and_eq_true_iff.mp h).1
      simp [insertTime, hab]

theorem dedupSorted_strict_id :
    ∀ (l : List Time), strictB l = true → dedupSorted l = l := by
  intro l
  induction l with
  | nil => intro _; rfl
  | cons a l ih =>
    intro h
    cases l with
    | nil => rfl
    | cons b r =>
      have hab : a < b := of_decide_eq_true (Bool.and_eq_true_iff.mp h).1
      have htail := ih (Bool.and_eq_true_iff.mp h).2
      have hne : a ≠ b := ne_of_lt hab
      show dedupSorted (a :: b :: r) = a :: b :: r
      unfold dedupSorted
      rw [if_neg hne, htail]

theorem unionIdx_nil_strict {l : List Time} (h : strictB l = true) :
    unionIdx [] l = l := by
  unfold unionIdx
  rw [List.nil_append, sortTimes_sorted_id l (strictB_sorted l h),
    dedupSorted_strict_id l h]

/-! Index-preservation facts for the pipeline steps. -/

theorem timesOf_map_pair (g : Time → Option Val) :
    ∀ (l : List Time), timesOf (l.map (fun t => (t, g t))) = l := by
  intro l
  induction l with
  | nil => rfl
  | cons a l ih =>
    show a :: timesOf (l.map (fun t => (t, g t))) = a :: l
    rw [ih]

theorem timesOf_map_entry (g : Entry → Option Val) :
    ∀ (s : TSeries), timesOf (s.map (fun e => (e.1, g e))) = timesOf s := by
  intro s
  induction s with
  | nil => rfl
  | cons a l ih =>
    show a.1 :: timesOf (l.map (fun e => (e.1, g e))) = a.1 :: timesOf l
    rw [ih]

theorem timesOf_asfreq (f : Nat) (s : TSeries) :
    timesOf (asfreq f s) = gridOf f s :=
  timesOf_map_pair _ _

theorem timesOf_asfreqFfill (f : Nat) (s : TSeries) :
    timesOf (asfreqFfill f s) = gridOf f s :=
  timesOf_map_pair _ _

theorem timesOf_asfreqBfill (f : Nat) (s : TSeries) :
    timesOf (asfreqBfill f s) = gridOf f s :=
  timesOf_map_pair _ _

theorem timesOf_reindex (s : TSeries) (l : List Time) :
    timesOf (reindex s l) = l :=
  timesOf_map_pair _ _

theorem timesOf_fillnaConst (x : Val) (s : TSeries) :
    timesOf (fillnaConst x s) = timesOf s :=
  timesOf_map_entry _ _

theorem timesOf_fillnaMean (s : TSeries) :
    timesOf (fillnaMean s) = timesOf s := by
  cases h : seriesMean s with
  | none => simp [fillnaMean, h]
  | some m => simp [fillnaMean, h, timesOf_fillnaConst]

theorem timesOf_interpolateTime (s : TSeries) :
    timesOf (interpolateTime s) = timesOf s :=
  timesOf_map_entry _ _

theorem timesOf_normalizeStep (st : Settings) (s : TSeries) :
    timesOf (normalizeStep st s).1 = timesOf s := by
  unfold normalizeStep
  split
  · rfl
  split
  · exact timesOf_map_entry _ _
  · rfl

theorem spacedB_gridOf (f : Nat) (s : TSeries) :
    spacedB f (gridOf f s) = true := by
  unfold gridOf
  split
  · rfl
  · exact spacedB_dateRange f _ _

theorem timesOf_sampleUp (f : Nat) (m : Policy) (s : TSeries) :
    timesOf (sampleUp f m s).1 = gridOf f s := by
  unfold sampleUp
  split
  · exact timesOf_asfreqBfill f s
  split
  · exact timesOf_asfreqFfill f s
  split
  · rw [timesOf_fillnaMean, timesOf_asfreq]
  split
  · rw [timesOf_interpolateTime, timesOf_asfreq]
  split
  · rw [timesOf_fillnaConst, timesOf_asfreq]
  · exact timesOf_asfreq f s

theorem spacedB_resampleRight (f : Nat) (a : Agg) (s : TSeries) :
    spacedB f (timesOf (resampleRight f a s)) = true := by
  unfold resampleRight
  split
  · rfl
  · rw [timesOf_map_pair]
    exact spacedB_dateRange f _ _

theorem spacedB_timesOf_dropWhile (f : Nat) (p : Entry → Bool) :
    ∀ (s : TSeries), spacedB f (timesOf s) = true →
      spacedB f (timesOf (s.dropWhile p)) = true := by
  intro s
  induction s with
  | nil => intro h; exact h
  | cons a l ih =>
    intro h
    rw [List.dropWhile_cons]
    split
    · exact ih (spacedB_tail h)
    · exact h

theorem spacedB_timesOf_take (f : Nat) (k : Nat) (s : TSeries)
    (h : spacedB f (timesOf s) = true) :
    spacedB f (timesOf (s.take k)) = true := by
  have : timesOf (s.take k) = (timesOf s).take k := by
    simp [timesOf, List.map_take]
  rw [this]
  exact spacedB_take f k _ h

theorem spacedB_trim (f : Nat) (s : TSeries)
    (h : spacedB f (timesOf s) = true) :
    spacedB f (timesOf (trim s)) = true := by
  unfold trim
  split
  · exact h
  · exact spacedB_timesOf_take f _ _ (spacedB_timesOf_dropWhile f _ s h)

theorem timesOf_fillNan_ne_drop (f0 : Nat) (m : Policy) (s : TSeries)
    (hm : m ≠ Policy.str "drop") :
    timesOf (fillNan (some f0) m s).1 = gridOf f0 s := by
  show timesOf
    (if m = Policy.str "drop" then (dropnaList (asfreq f0 s), ([] : List Warning))
     else if m = Policy.str "mean" then (fillnaMean (asfreq f0 s), [])
     else if m = Policy.str "interpolate" then (interpolateTime (asfreq f0 s), [])
     else if m.isFloat then (fillnaConst m.floatVal (asfreq f0 s), [])
     else (asfreq f0 s, [Warning.unsupported "sample_up" m])).1 = gridOf f0 s
  rw [if_neg hm]
  split
  · rw [timesOf_fillnaMean, timesOf_asfreq]
  split
  · rw [timesOf_interpolateTime, timesOf_asfreq]
  split
  · rw [timesOf_fillnaConst, timesOf_asfreq]
  · exact timesOf_asfreq f0 s

theorem spacedB_sampleDown (f : Nat) (m : Policy) (s : TSeries)
    (hm : m = Policy.str "mean" ∨ m = Policy.str "sum" ∨
      m = Policy.str "min" ∨ m = Policy.str "max") :
    spacedB f (timesOf (sampleDown f m s).1) = true := by
  rcases hm with rfl | rfl | rfl | rfl
  · have h : sampleDown f (Policy.str "mean") s = (resampleRight f Agg.mean s, []) := rfl
    rw [h]
    exact spacedB_resampleRight f Agg.mean s
  · have h : sampleDown f (Policy.str "sum") s = (resampleRight f Agg.sum s, []) := rfl
    rw [h]
    exact spacedB_resampleRight f Agg.sum s
  · have h : sampleDown f (Policy.str "min") s = (resampleRight f Agg.min s, []) := rfl
    rw [h]
    exact spacedB_resampleRight f Agg.min s
  · have h : sampleDown f (Policy.str "max") s = (resampleRight f Agg.max s, []) := rfl
    rw [h]
    exact spacedB_resampleRight f Agg.max s

theorem spacedB_changeFrequency (f f0 : Nat) (st : Settings) (s : TSeries)
    (hfreq : st.freq = some f)
    (hdown : f0 < f → st.sample_down = Policy.str "mean" ∨
      st.sample_down = Policy.str "sum" ∨ st.sample_down = Policy.str "min" ∨
      st.sample_down = Policy.str "max")
    (heq : f = f0 → st.fill_nan ≠ Policy.str "drop") :
    spacedB f (timesOf (changeFrequency (some f0) st s).1) = true := by
  unfold changeFrequency
  apply spacedB_trim
  rw [hfreq]
  rcases Nat.lt_trichotomy f f0 with hlt | hE | hgt
  · have hc : changeFrequencyCore (some f) (some f0) st s = sampleUp f st.sample_up s := by
      simp [changeFrequencyCore, get_dt, hlt]
    rw [hc, timesOf_sampleUp]
    exact spacedB_gridOf f s
  · have hfn := heq hE
    subst hE
    have hc : changeFrequencyCore (some f) (some f) st s = fillNan (some f) st.fill_nan s := by
      simp [changeFrequencyCore, get_dt]
    rw [hc, timesOf_fillNan_ne_drop f _ s hfn]
    exact spacedB_gridOf f s
  · have h1 : ¬ get_dt f < get_dt f0 := by simp [get_dt]; omega
    have h2 : get_dt f0 < get_dt f := hgt
    have hc : changeFrequencyCore (some f) (some f0) st s = sampleDown f st.sample_down s := by
      simp [changeFrequencyCore, if_neg h1, if_pos h2]
    rw [hc]
    exact spacedB_sampleDown f _ s (hdown hgt)

theorem spacedB_fillBeforeCore {f : Nat} (hf : 0 < f) (method : Policy)
    (tm mn : Option Time) (s : TSeries)
    (h : spacedB f (timesOf s) = true) :
    spacedB f (timesOf (fillBeforeCore [] method (some f) tm mn s).1) = true := by
  cases tm with
  | none => simpa [fillBeforeCore] using h
  | some tmin =>
    cases mn with
    | none => simpa [fillBeforeCore] using h
    | some mn =>
      by_cases hle : mn ≤ tmin
      · simpa [fillBeforeCore, hle] using h
      · have hext : spacedB f (dateRange (tmin - get_time_offset tmin f) mn f).dropLast = true :=
          spacedB_dropLast f _ (spacedB_dateRange f _ _)
        have hunion := unionIdx_nil_strict (spacedB_strict hf _ hext)
        have hidx : spacedB f (timesOf (reindex s
            (unionIdx [] (dateRange (tmin - get_time_offset tmin f) mn f).dropLast))) = true := by
          rw [timesOf_reindex, hunion]
          exact hext
        simp only [fillBeforeCore, if_neg hle]
        split
        · rw [timesOf_fillnaMean]; exact hidx
        split
        · rw [timesOf_fillnaConst]; exact hidx
        · exact hidx

theorem spacedB_fillBefore {f : Nat} (hf : 0 < f) (st : Settings) (s : TSeries)
    (hfreq : st.freq = some f)
    (h : spacedB f (timesOf s) = true) :
    spacedB f (timesOf (fillBefore [] st s).1) = true := by
  unfold fillBefore
  rw [hfreq]
  exact spacedB_fillBeforeCore hf st.fill_before st.tmin _ s h

theorem spacedB_fillAfterCore {f : Nat} (hf : 0 < f) (method : Policy)
    (tm mx : Option Time) (s : TSeries)
    (h : spacedB f (timesOf s) = true) :
    spacedB f (timesOf (fillAfterCore [] method (some f) tm mx s).1) = true := by
  cases tm with
  | none => simpa [fillAfterCore] using h
  | some tmax =>
    cases mx with
    | none => simpa [fillAfterCore] using h
    | some mx =>
      by_cases hle : tmax ≤ mx
      · simpa [fillAfterCore, hle] using h
      · have hext : spacedB f (dateRange (tmax - get_time_offset tmax f) mx f).dropLast = true :=
          spacedB_dropLast f _ (spacedB_dateRange f _ _)
        have hunion := unionIdx_nil_strict (spacedB_strict hf _ hext)
        have hidx : spacedB f (timesOf (reindex s
            (unionIdx [] (dateRange (tmax - get_time_offset tmax f) mx f).dropLast))) = true := by
          rw [timesOf_reindex, hunion]
          exact hext
        simp only [fillAfterCore, if_neg hle]
        split
        · rw [timesOf_fillnaMean]; exact hidx
        split
        · rw [timesOf_fillnaConst]; exact hidx
        · exact hidx

theorem spacedB_fillAfter {f : Nat} (hf : 0 < f) (st : Settings) (s : TSeries)
    (hfreq : st.freq = some f)
    (h : spacedB f (timesOf s) = true) :
    spacedB f (timesOf (fillAfter [] st s).1) = true := by
  unfold fillAfter
  rw [hfreq]
  exact spacedB_fillAfterCore hf st.fill_after st.tmax _ s h

/-! Bucket arithmetic for right-closed, right-labeled resampling. -/

theorem bucketLabel_dvd (f : Nat) (t : Time) : (f : Int) ∣ bucketLabel f t := by
  unfold bucketLabel
  refine ⟨-((-t) / (f : Int)), ?_⟩
  rw [Int.emod_def]
  ring

theorem bucketLabel_lb (f : Nat) (hf : 0 < f) (t : Time) :
    bucketLabel f t - (f : Int) < t := by
  show t + (-t) % (f : Int) - (f : Int) < t
  have h := Int.emod_lt_of_pos (-t) (show (0 : Int) < (f : Int) by exact_mod_cast hf)
  linarith

theorem bucketLabel_ub (f : Nat) (hf : 0 < f) (t : Time) : t ≤ bucketLabel f t := by
  show t ≤ t + (-t) % (f : Int)
  have h := Int.emod_nonneg (-t) (show (f : Int) ≠ 0 by exact_mod_cast hf.ne')
  linarith

theorem bucketLabel_eq_of (f : Nat) (_hf : 0 < f) (t L : Time)
    (hdvd : (f : Int) ∣ L) (h1 : L - (f : Int) < t) (h2 : t ≤ L) :
    bucketLabel f t = L := by
  obtain ⟨m, rfl⟩ := hdvd
  show t + (-t) % (f : Int) = (f : Int) * m
  have heq : (-t + (f : Int) * m) % (f : Int) = (-t) % (f : Int) :=
    Int.add_mul_emod_self_left (-t) (f : Int) m
  have hb1 : (0 : Int) ≤ -t + (f : Int) * m := by linarith
  have hb2 : -t + (f : Int) * m < (f : Int) := by linarith
  have hmod : (-t) % (f : Int) = (f : Int) * m - t := by
    rw [← heq, Int.emod_eq_of_lt hb1 hb2]
    ring
  rw [hmod]
  ring

theorem bucketLabel_iff (f : Nat) (hf : 0 < f) (t L : Time)
    (hdvd : (f : Int) ∣ L) :
    bucketLabel f t = L ↔ (L - (f : Int) < t ∧ t ≤ L) := by
  constructor
  · rintro rfl
    exact ⟨bucketLabel_lb f hf t, bucketLabel_ub f hf t⟩
  · rintro ⟨h1, h2⟩
    exact bucketLabel_eq_of f hf t L hdvd h1 h2

theorem mem_dateRangeAux (f : Nat) :
    ∀ (n : Nat) (t x : Time), x ∈ dateRangeAux f n t →
      ∃ k : Nat, x = t + (f : Int) * k := by
  intro n
  induction n with
  | zero => intro t x hx; cases hx
  | succ n ih =>
    intro t x hx
    rcases List.mem_cons.mp hx with rfl | hx
    · exact ⟨0, by simp⟩
    · obtain ⟨k, hk⟩ := ih (t + (f : Int)) x hx
      refine ⟨k + 1, ?_⟩
      rw [hk]
      push_cast
      ring

theorem dvd_of_mem_dateRange (f : Nat) (a b x : Time) (ha : (f : Int) ∣ a)
    (hx : x ∈ dateRange a b f) : (f : Int) ∣ x := by
  unfold dateRange at hx
  split at hx
  · cases hx
  · obtain ⟨k, hk⟩ := mem_dateRangeAux f _ a x hx
    rw [hk]
    exact dvd_add ha ⟨k, rfl⟩

theorem filterMap_congr_on {α β : Type} (g h : α → Option β) :
    ∀ (l : List α), (∀ x ∈ l, g x = h x) → l.filterMap g = l.filterMap h := by
  intro l
  induction l with
  | nil => intro _; rfl
  | cons a l ih =>
    intro hgh
    rw [List.filterMap_cons, List.filterMap_cons,
      hgh a (List.mem_cons_self a l), ih (fun x hx => hgh x (List.mem_cons_of_mem a hx))]

/-! Dispatch helpers for unrecognized policies. -/

theorem fillBeforeCore_unsupported (si : List Time) (m : Policy) (f : Nat)
    (tmin mn : Time) (s : TSeries) (hle : ¬ mn ≤ tmin)
    (hm : m ≠ Policy.str "mean") (hfl : m.isFloat = false) :
    fillBeforeCore si m (some f) (some tmin) (some mn) s
      = (reindex s (unionIdx si (dateRange (tmin - get_time_offset tmin f) mn f).dropLast),
         [Warning.unsupported "sample_up" m]) := by
  simp only [fillBeforeCore, if_neg hle, if_neg hm, hfl, Bool.false_eq_true, if_false]

theorem fillAfterCore_unsupported (si : List Time) (m : Policy) (f : Nat)
    (tmax mx : Time) (s : TSeries) (hle : ¬ tmax ≤ mx)
    (hm : m ≠ Policy.str "mean") (hfl : m.isFloat = false) :
    fillAfterCore si m (some f) (some tmax) (some mx) s
      = (reindex s (unionIdx si (dateRange (tmax - get_time_offset tmax f) mx f).dropLast),
         [Warning.unsupported "sample_up" m]) := by
  simp only [fillAfterCore, if_neg hle, if_neg hm, hfl, Bool.false_eq_true, if_false]

theorem irregular_not_in_fillNan (fo : Option Nat) (m : Policy) (s : TSeries) :
    Warning.irregularFreq ∉ (fillNan fo m s).2 := by
  cases fo with
  | none => simp [fillNan]
  | some f =>
    show Warning.irregularFreq ∉
      (if m = Policy.str "drop" then (dropnaList (asfreq f s), ([] : List Warning))
       else if m = Policy.str "mean" then (fillnaMean (asfreq f s), [])
       else if m = Policy.str "interpolate" then (interpolateTime (asfreq f s), [])
       else if m.isFloat then (fillnaConst m.floatVal (asfreq f s), [])
       else (asfreq f s, [Warning.unsupported "sample_up" m])).2
    split
    · simp
    split
    · simp
    split
    · simp
    split
    · simp
    · simp

/-! Settings resolution and validation stability (for export/reconstruct). -/

theorem applyPatch_fullPatch (x st : Settings) : applyPatch x (fullPatch st) = st := rfl

theorem validate_stable (st : Settings) (s : TSeries) :
    validateSeries (validateSeries st s).settings s = validateSeries st s := by
  unfold validateSeries
  cases hinf : inferFreq (timesOf (trim (sortSeries s))) with
  | none => simp [hinf]
  | some f =>
    cases hfr : st.freq with
    | none => simp [hinf, hfr]
    | some g => simp [hinf, hfr]

theorem sortSeries_sorted_id :
    ∀ (s : TSeries), sortedB (timesOf s) = true → sortSeries s = s := by
  intro s
  induction s with
  | nil => intro _; rfl
  | cons a l ih =>
    intro h
    have htail : sortedB (timesOf l) = true := by
      cases l with
      | nil => rfl
      | cons b r => exact (Bool.and_eq_true_iff.mp h).2
    show insertEntry a (sortSeries l) = a :: l
    rw [ih htail]
    cases l with
    | nil => rfl
    | cons b r =>
      have hab : a.1 ≤ b.1 := of_decide_eq_true (Bool.and_eq_true_iff.mp h).1
      simp [insertEntry, hab]

/-- The grid invariant for one full construction-time pipeline run. -/
theorem spacedB_updateSeries (v : TSeries) (st : Settings) (f f0 : Nat)
    (hf : 0 < f) (hfreq : st.freq = some f)
    (hdown : f0 < f → st.sample_down = Policy.str "mean" ∨
      st.sample_down = Policy.str "sum" ∨ st.sample_down = Policy.str "min" ∨
      st.sample_down = Policy.str "max")
    (heq : f = f0 → st.fill_nan ≠ Policy.str "drop") :
    spacedB f (timesOf (updateSeries [] (some f0) st v).1) = true := by
  unfold updateSeries
  rw [timesOf_normalizeStep]
  exact spacedB_fillAfter hf st _ hfreq
    (spacedB_fillBefore hf st _ hfreq
      (spacedB_changeFrequency f f0 st v hfreq hdown heq))

/-! The claims. -/

/-- C1: the claim says `fill_before`, for a requested `tmin` earlier than the
series' minimum, snaps `tmin` back by its phase offset, generates grid points
up to (but not including) the current minimum, unions them with the series'
current index and reindexes onto the union, so every pre-existing observation
is retained.  The code instead unions the extension with `self.index` — the
processor's own index, still empty while the constructor's pipeline runs — so
the daily series 1,2,3 at days 0,1,2 extended to `tmin = day -2` with
`fill_before = 5.0` is reindexed onto the two extension points alone: every
pre-existing observation is dropped, contradicting the claim and the method's
own docstring ("add a period in front of the available time series").  This
theorem evaluates the constructor at that failing input. -/
theorem C1_code_bug_eval :
    (mkProcessor [(0, some 1), (1440, some 2), (2880, some 3)] "obs" Option.none
        { tmin := some (some (-2880)), fill_before := some (Policy.flt 5) }).derived
      = [(-2880, some 5), (-1440, some 5)]
    ∧ lookupT (mkProcessor [(0, some 1), (1440, some 2), (2880, some 3)] "obs" Option.none
        { tmin := some (some (-2880)), fill_before := some (Policy.flt 5) }).series 0
      = some 1 := by
  constructor
  · decide
  · decide

/-- C2: the claim says `fill_after`, for a requested `tmax` beyond the series'
maximum, extends the index up to the offset-corrected `tmax`.  The code calls
`pd.date_range(start=tmax - offset, end=series.index.max())` with start after
end — an empty range — and unions `indexExtend[:-1]` with the still-empty
`self.index`, so the derived series of a daily series at days 0,1,2 with
`tmax = day 3` is empty rather than extended.  This theorem evaluates the
constructor at that failing input (the no-op half of the claim, `tmax` inside
the range, does hold in the code). -/
theorem C2_code_bug_eval :
    (mkProcessor [(0, some 1), (1440, some 2), (2880, some 3)] "obs" Option.none
        { tmax := some (some 4320), fill_after := some (Policy.str "mean") }).derived
      = [] := by
  decide

/-- C3 (counterexample): with `fill_nan = "drop"` and an irregular input
(days 0, 2, 3) the equal-frequency branch reindexes onto the daily grid and
then drops the NaN row, leaving the derived index at spacings of 2 days and
1 day — not the constant configured frequency the claim asserts for every
settings combination. -/
theorem C3_counterexample :
    (mkProcessor [(0, some 1), (2880, some 3), (4320, some 4)] "o" Option.none
        { fill_nan := some (Policy.str "drop") }).settings.freq = some 1440
    ∧ spacedB 1440 (timesOf (mkProcessor [(0, some 1), (2880, some 3), (4320, some 4)]
        "o" Option.none { fill_nan := some (Policy.str "drop") }).derived) = false := by
  constructor
  · decide
  · decide

/-- C3 (amended): the derived series' index has constant spacing exactly the
configured frequency and no duplicate timestamps, provided the configured
frequency is positive, an original frequency is recorded, the sample_down
policy is one of mean/sum/min/max when downsampling, and the fill_nan policy
is not "drop" when the frequencies are equal (with `fill_nan = "drop"`, or an
unrecognized `sample_down` policy, gap rows survive off the grid and the
invariant fails — see the counterexample). -/
theorem C3_amended_grid (s : TSeries) (n : String) (ty : Option String)
    (u : SettingsPatch) (f f0 : Nat) (hf : 0 < f)
    (hfreq : (mkProcessor s n ty u).settings.freq = some f)
    (horig : (mkProcessor s n ty u).freq_original = some f0)
    (hdown : f0 < f → (mkProcessor s n ty u).settings.sample_down = Policy.str "mean" ∨
      (mkProcessor s n ty u).settings.sample_down = Policy.str "sum" ∨
      (mkProcessor s n ty u).settings.sample_down = Policy.str "min" ∨
      (mkProcessor s n ty u).settings.sample_down = Policy.str "max")
    (heq : f = f0 → (mkProcessor s n ty u).settings.fill_nan ≠ Policy.str "drop") :
    spacedB f (timesOf (mkProcessor s n ty u).derived) = true
    ∧ (timesOf (mkProcessor s n ty u).derived).Nodup := by
  have hd : (mkProcessor s n ty u).derived
      = (updateSeries [] (mkProcessor s n ty u).freq_original
          (mkProcessor s n ty u).settings (mkProcessor s n ty u).series).1 := rfl
  rw [hd, horig]
  have h1 := spacedB_updateSeries (mkProcessor s n ty u).series
    (mkProcessor s n ty u).settings f f0 hf hfreq hdown heq
  exact ⟨h1, strictB_nodup _ (spacedB_strict hf _ h1)⟩

/-- C3 (witness): the amended grid invariant at a concrete daily series. -/
theorem C3_amended_grid_witness :
    spacedB 1440 (timesOf (mkProcessor [(0, some 1), (1440, some 2), (2880, some 3)]
        "w" Option.none {}).derived) = true
    ∧ (timesOf (mkProcessor [(0, some 1), (1440, some 2), (2880, some 3)]
        "w" Option.none {}).derived).Nodup :=
  C3_amended_grid [(0, some 1), (1440, some 2), (2880, some 3)] "w" Option.none {}
    1440 1440 (by decide) (by decide) (by decide)
    (fun h => absurd h (by decide)) (fun _ => by decide)

/-- C4 (counterexample): the claim says every fill, sample and normalize step
skips an unrecognized policy and surfaces a caution naming the policy and the
step; but `normalize` has no else branch, so an unrecognized `norm` policy is
skipped silently.  At this input (regular daily series, `fill_nan = "drop"`
so no other step warns, `norm = "bogus"`) the constructor produces zero
warnings while leaving the series untouched. -/
theorem C4_counterexample :
    (mkProcessor [(0, some 1), (1440, some 2), (2880, some 3)] "n" Option.none
        { fill_nan := some (Policy.str "drop"), norm := some (Policy.str "bogus") }).settings.norm
      = Policy.str "bogus"
    ∧ (mkProcessor [(0, some 1), (1440, some 2), (2880, some 3)] "n" Option.none
        { fill_nan := some (Policy.str "drop"), norm := some (Policy.str "bogus") }).warnings
      = []
    ∧ (mkProcessor [(0, some 1), (1440, some 2), (2880, some 3)] "n" Option.none
        { fill_nan := some (Policy.str "drop"), norm := some (Policy.str "bogus") }).derived
      = [(0, some 1), (1440, some 2), (2880, some 3)] := by
  refine ⟨by decide, by decide, by decide⟩

/-- C4 (amended): for the fill and sample steps (sample_up, sample_down,
fill_nan, fill_before, fill_after) an unrecognized policy performs no filling
or aggregation (the grid/extension reindexing that precedes the dispatch
still occurs), raises no exception, and emits exactly one caution naming the
offending policy value — but the step name in the caution is "sample_up"
for fill_nan, fill_before and fill_after, not the step it was configured
for; the normalize step skips an unrecognized policy silently with no
caution at all. -/
theorem C4_amended_dispatch (f : Nat) (s : TSeries) (b : String)
    (hb : b ∉ (["backfill", "bfill", "pad", "ffill", "mean", "interpolate",
      "drop", "sum", "min", "max"] : List String)) :
    sampleUp f (Policy.str b) s
      = (asfreq f s, [Warning.unsupported "sample_up" (Policy.str b)])
    ∧ sampleDown f (Policy.str b) s
      = (s, [Warning.unsupported "sample_down" (Policy.str b)])
    ∧ fillNan (some f) (Policy.str b) s
      = (asfreq f s, [Warning.unsupported "sample_up" (Policy.str b)])
    ∧ fillBeforeCore [] (Policy.str b) (some 1440) (some (-1440)) (some 0) [(0, some 1)]
      = ([(-1440, Option.none)], [Warning.unsupported "sample_up" (Policy.str b)])
    ∧ fillAfterCore [] (Policy.str b) (some 1440) (some 2880) (some 0) [(0, some 1)]
      = ([], [Warning.unsupported "sample_up" (Policy.str b)])
    ∧ (∀ st : Settings, st.norm = Policy.str b → normalizeStep st s = (s, [])) := by
  simp only [List.mem_cons, List.not_mem_nil, or_false, not_or] at hb
  obtain ⟨hb1, hb2, hb3, hb4, hb5, hb6, hb7, hb8, hb9, hb10⟩ := hb
  refine ⟨?_, ?_, ?_, ?_, ?_, ?_⟩
  · simp [sampleUp, hb1, hb2, hb3, hb4, hb5, hb6, Policy.isFloat]
  · simp [sampleDown, hb5, hb7, hb8, hb9, hb10]
  · show (if Policy.str b = Policy.str "drop" then
        (dropnaList (asfreq f s), ([] : List Warning))
      else if Policy.str b = Policy.str "mean" then (fillnaMean (asfreq f s), [])
      else if Policy.str b = Policy.str "interpolate" then (interpolateTime (asfreq f s), [])
      else if (Policy.str b).isFloat then (fillnaConst (Policy.str b).floatVal (asfreq f s), [])
      else (asfreq f s, [Warning.unsupported "sample_up" (Policy.str b)]))
      = (asfreq f s, [Warning.unsupported "sample_up" (Policy.str b)])
    simp [hb5, hb6, hb7, Policy.isFloat]
  · rw [fillBeforeCore_unsupported [] (Policy.str b) 1440 (-1440) 0 [(0, some 1)]
      (by decide) (by simp [hb5]) rfl]
    have h2 : reindex [((0 : Int), some (1 : Val))]
        (unionIdx [] (dateRange ((-1440) - get_time_offset (-1440) 1440) 0 1440).dropLast)
        = [((-1440 : Int), (Option.none : Option Val))] := by decide
    rw [h2]
  · rw [fillAfterCore_unsupported [] (Policy.str b) 1440 2880 0 [(0, some 1)]
      (by decide) (by simp [hb5]) rfl]
    have h2 : reindex [((0 : Int), some (1 : Val))]
        (unionIdx [] (dateRange (2880 - get_time_offset 2880 1440) 0 1440).dropLast)
        = ([] : TSeries) := by decide
    rw [h2]
  · intro st hst
    have hn1 : st.norm ≠ Policy.none := by rw [hst]; intro hc; cases hc
    have hn2 : st.norm ≠ Policy.str "mean" := by
      rw [hst]; intro hc; injection hc with hc'; exact hb5 hc'
    simp [normalizeStep, hn1, hn2]

/-- C4 (witness): the unsupported-policy dispatch at the concrete policy
string "bogus". -/
theorem C4_amended_dispatch_witness :
    sampleUp 1440 (Policy.str "bogus") [(0, some 1), (1440, Option.none)]
      = (asfreq 1440 [(0, some 1), (1440, Option.none)],
         [Warning.unsupported "sample_up" (Policy.str "bogus")]) :=
  (C4_amended_dispatch 1440 [(0, some 1), (1440, Option.none)] "bogus" (by decide)).1

/-- C5 (counterexample): the claim says the irregular-source caution fires if
and only if `fill_nan` is not "drop", and in particular that `fill_nan = 0.0`
triggers it; but the code guards with `if fill_nan and fill_nan != "drop"`,
and `0.0` is falsy in Python, so validating an irregular series (days 0,2,3)
with `fill_nan = 0.0` emits no caution at all. -/
theorem C5_counterexample :
    (validateSeries { baseSettings with fill_nan := Policy.flt 0 }
        [(0, some 1), (2880, some 3), (4320, some 4)]).warnings = []
    ∧ Policy.flt 0 ≠ Policy.str "drop" := by
  refine ⟨by decide, by decide⟩

/-- C5 (amended): when no frequency can be inferred, validation adopts the
configured frequency as the original frequency, and the irregular-source
caution is emitted if and only if the `fill_nan` policy is truthy (not None,
not 0.0, not 0, not the empty string) and not "drop". -/
theorem C5_amended_caution (st : Settings) (s : TSeries)
    (hinf : inferFreq (timesOf (trim (sortSeries s))) = Option.none) :
    (validateSeries st s).freqOriginal = st.freq
    ∧ (Warning.irregularFreq ∈ (validateSeries st s).warnings
        ↔ st.fill_nan.truthy = true ∧ st.fill_nan ≠ Policy.str "drop") := by
  constructor
  · simp [validateSeries, hinf]
  · have hnotin : ∀ (fo : Option Nat) (m : Policy) (s2 : TSeries),
        Warning.irregularFreq ∉
          (if hasNans s2 then fillNan fo m s2 else (s2, [])).2 := by
      intro fo m s2
      split
      · exact irregular_not_in_fillNan fo m s2
      · simp
    simp only [validateSeries, hinf]
    rw [List.mem_append]
    constructor
    · rintro (hmem | hmem)
      · by_cases hcond : st.fill_nan.truthy = true ∧ st.fill_nan ≠ Policy.str "drop"
        · exact hcond
        · rw [if_neg hcond] at hmem
          cases hmem
      · exact absurd hmem (hnotin _ _ _)
    · intro hcond
      left
      rw [if_pos hcond]
      exact List.mem_singleton_self _

/-- C5 (witness): the amended caution rule at a concrete irregular series
with a truthy, non-"drop" fill_nan policy (the constant 5.0). -/
theorem C5_amended_caution_witness :
    Warning.irregularFreq ∈ (validateSeries { baseSettings with fill_nan := Policy.flt 5 }
        [(0, some 1), (2880, some 3), (4320, some 4)]).warnings :=
  ((C5_amended_caution { baseSettings with fill_nan := Policy.flt 5 }
      [(0, some 1), (2880, some 3), (4320, some 4)] (by decide)).2).mpr (by decide)

/-- C6: downsampling buckets are right-closed and right-labeled: every output
row of a sum-downsample carries the sum of exactly the observations in the
half-open interval (label - freq, label], so a boundary observation joins the
bucket ending at it; concretely, hourly values 1, 2, 4, 8 at 00:00, 12:00,
24:00 and 48:00 summed daily give the bucket labeled 24:00 the value
2 + 4 = 6 (the 12:00 and 24:00 values), with the 48:00 value in its own
bucket. -/
theorem C6_bucket_rule :
    (∀ (f : Nat) (s : TSeries) (L : Time) (w : Option Val), 0 < f →
      (L, w) ∈ (sampleDown f (Policy.str "sum") s).1 →
      w = some (sumVals (s.filterMap (fun e =>
        if L - (f : Int) < e.1 ∧ e.1 ≤ L then e.2 else Option.none))))
    ∧ sampleDown 1440 (Policy.str "sum")
        [(0, some 1), (720, some 2), (1440, some 4), (2880, some 8)]
      = ([(0, some 1), (1440, some 6), (2880, some 8)], []) := by
  constructor
  · intro f s L w hf hmem
    have hs : sampleDown f (Policy.str "sum") s = (resampleRight f Agg.sum s, []) := rfl
    rw [hs] at hmem
    unfold resampleRight at hmem
    split at hmem
    · cases hmem
    · rw [List.mem_map] at hmem
      obtain ⟨L2, hL2, hEq⟩ := hmem
      injection hEq with hLeq hweq
      rw [hLeq] at hL2 hweq
      have hdvd : (f : Int) ∣ L :=
        dvd_of_mem_dateRange f _ _ L (bucketLabel_dvd f _) hL2
      rw [← hweq]
      show aggApply Agg.sum (bucketValues f s L)
        = some (sumVals (s.filterMap (fun e =>
            if L - (f : Int) < e.1 ∧ e.1 ≤ L then e.2 else Option.none)))
      have hbv : bucketValues f s L = s.filterMap (fun e =>
          if L - (f : Int) < e.1 ∧ e.1 ≤ L then e.2 else Option.none) := by
        apply filterMap_congr_on
        intro e _
        have hiff := bucketLabel_iff f hf e.1 L hdvd
        simp only [beq_iff_eq]
        by_cases hc : bucketLabel f e.1 = L
        · rw [if_pos hc, if_pos (hiff.mp hc)]
        · rw [if_neg hc, if_neg (fun hx => hc (hiff.mpr hx))]
      rw [hbv]
      rfl
  · with_unfolding_all decide

/-- C6 (witness): the bucket rule applied at the concrete daily-sum scenario,
at the bucket labeled 24:00. -/
theorem C6_bucket_rule_witness :
    some (6 : Val) = some (sumVals
      (([(0, some 1), (720, some 2), (1440, some 4), (2880, some 8)] : TSeries).filterMap
        (fun e => if (1440 : Int) - 1440 < e.1 ∧ e.1 ≤ 1440 then e.2 else Option.none))) :=
  C6_bucket_rule.1 1440 [(0, some 1), (720, some 2), (1440, some 4), (2880, some 8)]
    1440 (some 6) (by decide) (by with_unfolding_all decide)

/-- C7: gap filling on the daily series [1, NaN, 3]: the
linear-time-interpolation policy yields [1, 2, 3], "drop" removes the gap
row, the constant 5.0 fills it with 5.0; and with no knowable frequency
(`freq_original` falsy), gap rows are dropped regardless of the configured
policy. -/
theorem C7_gap_fill :
    fillNan (some 1440) (Policy.str "interpolate")
        [(0, some 1), (1440, Option.none), (2880, some 3)]
      = ([(0, some 1), (1440, some 2), (2880, some 3)], [])
    ∧ fillNan (some 1440) (Policy.str "drop")
        [(0, some 1), (1440, Option.none), (2880, some 3)]
      = ([(0, some 1), (2880, some 3)], [])
    ∧ fillNan (some 1440) (Policy.flt 5)
        [(0, some 1), (1440, Option.none), (2880, some 3)]
      = ([(0, some 1), (1440, some 5), (2880, some 3)], [])
    ∧ (∀ (m : Policy) (s : TSeries), fillNan Option.none m s = (dropnaList s, [])) := by
  refine ⟨by with_unfolding_all decide, by with_unfolding_all decide,
    by with_unfolding_all decide, fun m s => rfl⟩

/-- C8: reconstructing a processor from the record returned by `export` —
which holds exactly the original series, the resolved settings, the name and
the type, and excludes the derived series — reproduces the original derived
series: re-running the deterministic pipeline on the exported raw series and
settings is bit-identical to the original run. -/
theorem C8_rederive (s : TSeries) (n : String) (ty : Option String)
    (u : SettingsPatch) :
    (reconstruct (Processor.export (mkProcessor s n ty u))).derived
      = (mkProcessor s n ty u).derived := by
  simp only [reconstruct, Processor.export, mkProcessor]
  rw [show resolveSettings ty (fullPatch (validateSeries (resolveSettings ty u) s).settings)
      = (validateSeries (resolveSettings ty u) s).settings from rfl]
  rw [validate_stable]

/-- C9 (counterexample): the claim says construction never mutates the
caller-supplied series object; but `validate_series` coerces and sorts the
caller's index in place, so an unsorted input object (here three daily rows
given out of order, enough timestamps for frequency inference to succeed)
comes back sorted. -/
theorem C9_counterexample :
    (mkProcessor [(2880, some 3), (0, some 1), (1440, some 2)] "m" Option.none {}).callerAfter
      ≠ [(2880, some 3), (0, some 1), (1440, some 2)] := by
  decide

/-- C9 (amended): the stored raw series is a deep copy taken before
validation and equals the caller's input as given; the caller-supplied
object is mutated only by the in-place index coercion and sort during
validation — in particular it is left unchanged whenever its index is
already sorted. -/
theorem C9_amended_mutation (s : TSeries) (n : String) (ty : Option String)
    (u : SettingsPatch) :
    (mkProcessor s n ty u).series_original = s
    ∧ (mkProcessor s n ty u).callerAfter = sortSeries s
    ∧ (sortedB (timesOf s) = true → (mkProcessor s n ty u).callerAfter = s) := by
  refine ⟨rfl, rfl, fun hs => ?_⟩
  show sortSeries s = s
  exact sortSeries_sorted_id s hs

/-- C9 (witness): the amended mutation contract at a concrete sorted
three-row daily input (enough timestamps for frequency inference). -/
theorem C9_amended_mutation_witness :
    (mkProcessor [((0 : Int), some (1 : Val)), (1440, some 2), (2880, some 3)]
        "w9" Option.none {}).callerAfter
      = [((0 : Int), some (1 : Val)), (1440, some 2), (2880, some 3)] :=
  (C9_amended_mutation [((0 : Int), some (1 : Val)), (1440, some 2), (2880, some 3)]
    "w9" Option.none {}).2.2 (by decide)

/-- C10: in sample_up and fill_nan the constant-fill branch is guarded by
`type(method) == float`, so only a float policy fills with the constant; an
int policy falls through every recognized branch, leaving the gaps unfilled
and emitting the unsupported-policy caution — likewise in the fill_before
and fill_after dispatch, shown at concrete firing inputs: the fill_before
extension gap stays NaN under the int policy (with a caution) and is filled
under the float policy, and fill_after on its firing branch (with a prior
self index supplying the reindex positions) likewise leaves the new gap NaN
with a caution under the int policy and fills it under the float policy. -/
theorem C10_float_dispatch :
    (∀ (f : Nat) (s : TSeries) (x : Rat),
      sampleUp f (Policy.flt x) s = (fillnaConst x (asfreq f s), []))
    ∧ (∀ (f : Nat) (s : TSeries) (n : Int),
      sampleUp f (Policy.int n) s
        = (asfreq f s, [Warning.unsupported "sample_up" (Policy.int n)]))
    ∧ (∀ (f : Nat) (s : TSeries) (x : Rat),
      fillNan (some f) (Policy.flt x) s = (fillnaConst x (asfreq f s), []))
    ∧ (∀ (f : Nat) (s : TSeries) (n : Int),
      fillNan (some f) (Policy.int n) s
        = (asfreq f s, [Warning.unsupported "sample_up" (Policy.int n)]))
    ∧ fillNan (some 1440) (Policy.int 5) [(0, some 1), (1440, Option.none), (2880, some 3)]
      = ([(0, some 1), (1440, Option.none), (2880, some 3)],
         [Warning.unsupported "sample_up" (Policy.int 5)])
    ∧ fillBeforeCore [] (Policy.int 7) (some 1440) (some (-1440)) (some 0) [(0, some 1)]
      = ([(-1440, Option.none)], [Warning.unsupported "sample_up" (Policy.int 7)])
    ∧ fillBeforeCore [] (Policy.flt 7) (some 1440) (some (-1440)) (some 0) [(0, some 1)]
      = ([(-1440, some 7)], [])
    ∧ fillAfterCore [1440] (Policy.int 7) (some 1440) (some 2880) (some 0) [(0, some 1)]
      = ([(1440, Option.none)], [Warning.unsupported "sample_up" (Policy.int 7)])
    ∧ fillAfterCore [1440] (Policy.flt 7) (some 1440) (some 2880) (some 0) [(0, some 1)]
      = ([(1440, some 7)], []) := by
  refine ⟨fun f s x => rfl, fun f s n => rfl, fun f s x => rfl, fun f s n => rfl,
    by decide, by decide, by decide, by decide, by decide⟩

end Pastas
